import Mathlib

/-
Verification development for the ledger-watchdog ingestion core.

This file gives a shallow embedding, in Lean 4, of the USDT ingestion engine
of the repository:

  * server/src/jobs/poll-usdt.ts        (slot locator, block extractor,
                                         dedup guard, polling cycle)
  * the solana RPC service bundled with server/src/services/flagService.ts
                                        (its own slot locator and extractor,
                                         and the per-slot retry loop of
                                         fetchRecentUsdtTransfers)
  * server/src/repositories/transactionRepository.ts   (upsert)
  * the transaction service (enrichTransactionData, upsertTransaction)

Conventions of the embedding:
  * JavaScript numbers that hold slot counts are modelled as Nat, block
    times as Int, token amounts as Nat (raw integer strings) and ℚ (decimal
    units).
  * A JSON-RPC call that can fail or return null is modelled with Option;
    an RPC environment record supplies the upstream responses of one cycle.
  * Await points, logging and sleeping carry no data and are elided; the
    delays the code sleeps for are reified as data where a claim is about
    them (the per-slot retry loop).
  * JavaScript truthiness is modelled explicitly where the source relies on
    it (comments at each site).
-/

namespace LW

/-- Tracked mint constant (config.usdtMint fallback in both sources). -/
def USDT_MINT : String := "Es9vMFrzaCERmJfrF4H2FYD4KCoNkY11McCe8BenwNYB"

/-! ## Slot locator

`findStartSlotAtOrBefore` from server/src/jobs/poll-usdt.ts (lines 51-88)
and the variant in the solana service.  The RPC probe `getBlockTime` is
modelled as a total oracle `bt : Nat → Option Int` (`none` = the RPC
returned null for a skipped slot). -/

/-- The backward bracket-widening loop of `findStartSlotAtOrBefore`:
`while (lo > 1) ... hi = lo; step *= 2; lo = Math.max(1, lo - step)`.
In the source, `step` starts at 64 and only doubles, so it is always
positive; the positivity hypothesis records that loop invariant and makes
the loop provably terminating. -/
def probeBack (bt : Nat → Option Int) (targetTs : Int) (lo hi step : Nat)
    (hstep : 0 < step) : Nat × Nat :=
  if h : 1 < lo then
    match bt lo with
    | some ts =>
      if ts ≤ targetTs then (lo, hi)
      else probeBack bt targetTs (max 1 (lo - 2 * step)) lo (2 * step) (by omega)
    | none => probeBack bt targetTs (max 1 (lo - 2 * step)) lo (2 * step) (by omega)
  else (lo, hi)
termination_by lo
decreasing_by all_goals exact Nat.max_lt.mpr ⟨h, by omega⟩

/-- The lower end of the bracket computed by `probeBack` stays at or above
1 (every update clamps with `max 1 _`). -/
theorem probeBack_fst_pos (bt : Nat → Option Int) (t : Int) :
    ∀ lo, ∀ hi step, ∀ hs : 0 < step, 1 ≤ lo → 1 ≤ (probeBack bt t lo hi step hs).1 := by
  intro lo
  induction lo using Nat.strong_induction_on with
  | _ lo ih =>
    intro hi step hs hlo
    unfold probeBack
    split
    · rename_i h
      cases hbt : bt lo with
      | none =>
        simp only
        exact ih _ (Nat.max_lt.mpr ⟨h, by omega⟩) _ _ _ (le_max_left _ _)
      | some ts =>
        simp only
        split
        · exact hlo
        · exact ih _ (Nat.max_lt.mpr ⟨h, by omega⟩) _ _ _ (le_max_left _ _)
    · exact hlo

/-- The binary-search loop shared by both locator versions:
midpoints with a null block time are treated as after the target
(`hi = mid - 1`), otherwise the midpoint becomes the best candidate when
its time is at or before the target.  Both callers enter the loop with
`lo = max 1 _`, recorded by the positivity hypothesis, under which the
truncated Nat subtraction `mid - 1` agrees with the source's integer
arithmetic. -/
def binSearch (bt : Nat → Option Int) (targetTs : Int) (lo hi best : Nat)
    (hlo : 1 ≤ lo) : Nat :=
  if h : lo ≤ hi then
    let mid := (lo + hi) / 2
    match bt mid with
    | none => binSearch bt targetTs lo (mid - 1) best hlo
    | some ts =>
      if ts ≤ targetTs then binSearch bt targetTs (mid + 1) hi mid (by omega)
      else binSearch bt targetTs lo (mid - 1) best hlo
  else best
termination_by hi + 1 - lo
decreasing_by all_goals simp_wf; omega

/-- `findStartSlotAtOrBefore(targetTs, endSlot)` of poll-usdt.ts: bracket
`[lo, hi]` (widening to `hi - 10000` when the head's time is already at or
before the target, else probing backward), then binary search, then clamp
to at least 1. -/
def findStartSlotAtOrBefore (bt : Nat → Option Int) (targetTs : Int) (endSlot : Nat) : Nat :=
  if endSlot ≤ 1 then 1
  else
    let hi := endSlot
    let lo := max 1 (hi - 64)
    let best :=
      match bt hi with
      | some t =>
        if t ≤ targetTs then
          binSearch bt targetTs (max 1 (hi - 10000)) hi (max 1 (hi - 10000))
            (le_max_left _ _)
        else
          let lh := probeBack bt targetTs lo hi 64 (by norm_num)
          binSearch bt targetTs lh.1 lh.2 lh.1
            (probeBack_fst_pos bt targetTs lo hi 64 (by norm_num) (le_max_left _ _))
      | none =>
        let lh := probeBack bt targetTs lo hi 64 (by norm_num)
        binSearch bt targetTs lh.1 lh.2 lh.1
          (probeBack_fst_pos bt targetTs lo hi 64 (by norm_num) (le_max_left _ _))
    max 1 best

/-- The solana-service variant of the locator (flagService.ts bundle,
lines 372-401): identical except that a successful first probe keeps
`lo = hi - 64` instead of widening to `hi - 10000`. -/
def findStartSlotAtOrBefore_svc (bt : Nat → Option Int) (targetTs : Int) (endSlot : Nat) : Nat :=
  if endSlot ≤ 1 then 1
  else
    let hi := endSlot
    let lo := max 1 (hi - 64)
    let best :=
      match bt hi with
      | some t =>
        if t ≤ targetTs then binSearch bt targetTs lo hi lo (le_max_left _ _)
        else
          let lh := probeBack bt targetTs lo hi 64 (by norm_num)
          binSearch bt targetTs lh.1 lh.2 lh.1
            (probeBack_fst_pos bt targetTs lo hi 64 (by norm_num) (le_max_left _ _))
      | none =>
        let lh := probeBack bt targetTs lo hi 64 (by norm_num)
        binSearch bt targetTs lh.1 lh.2 lh.1
          (probeBack_fst_pos bt targetTs lo hi 64 (by norm_num) (le_max_left _ _))
    max 1 best

/-! ## Parsed transactions and the event extractor -/

/-- `info.tokenAmount` of a parsed transferChecked instruction: the raw
integer amount string and the number of decimals. -/
structure TokenAmount where
  amount : Nat
  decimals : Nat
deriving DecidableEq

/-- The `info` object of a parsed SPL-token instruction.  `amount` is a
decimal string in the source; it is modelled as `Option Nat` (present or
absent).  Note that in JavaScript the string "0" is truthy, so presence,
not the numeric value, is what `info?.amount` tests. -/
structure InstrInfo where
  mint : Option String := none
  tokenAmount : Option TokenAmount := none
  amount : Option Nat := none
  source : Option String := none
  destination : Option String := none
deriving DecidableEq

/-- The `parsed` field of an instruction: its declared type and info. -/
structure ParsedIx where
  kind : String
  info : InstrInfo := {}
deriving DecidableEq

/-- One (top-level or inner) instruction: its owning program name and the
optional parsed payload (`ins?.parsed`). -/
structure Instr where
  program : Option String := none
  parsed : Option ParsedIx := none
deriving DecidableEq

/-- One entry of `meta.preTokenBalances` / `meta.postTokenBalances`; only
the mint is consulted by the extractor. -/
structure TokenBalance where
  mint : String
deriving DecidableEq

/-- The transaction `meta`: balance snapshots and inner instructions. -/
structure TxMeta where
  preTokenBalances : List TokenBalance := []
  postTokenBalances : List TokenBalance := []
  innerInstructions : List (List Instr) := []
deriving DecidableEq

/-- A parsed transaction as returned by `getTransaction`:
`transaction.message.instructions` plus `meta`. -/
structure Tx where
  instructions : List Instr := []
  meta : TxMeta := {}
deriving DecidableEq

/-- A signatures-only block as returned by
`getBlock(slot, transactionDetails: signatures)`. -/
structure Block where
  slot : Nat
  blockTime : Option Int := none
  signatures : List String := []
deriving DecidableEq

/-- A normalized transfer event (`UsdtEvent` in both sources). -/
structure UsdtEvent where
  signature : String
  slot : Nat
  blockTime : Option Int
  source : Option String
  destination : Option String
  amountRaw : Nat
  amount : ℚ
  kind : String
deriving DecidableEq

/-- The per-instruction match of the extractor loop body
(poll-usdt.ts lines 158-202, identically in the service extractor):
the instruction must have a parsed payload and program `spl-token`;
then either a `transferChecked` whose mint is the tracked mint, or a
`transfer` carrying an amount while the pre/post token balance snapshots
mention the tracked mint.  Returns the event for a match, `none` for an
instruction the loop `continue`s past. -/
def instrEvent (slot : Nat) (blockTime : Option Int) (sig : String) (meta : TxMeta)
    (ins : Instr) : Option UsdtEvent :=
  match ins.parsed, ins.program with
  | some ix, some prog =>
    if prog ≠ "spl-token" then none
    else if ix.kind = "transferChecked" ∧ ix.info.mint = some USDT_MINT then
      let amtRaw : Nat :=
        match ix.info.tokenAmount with
        | some ta => ta.amount
        | none => ix.info.amount.getD 0
      let dec : Nat :=
        match ix.info.tokenAmount with
        | some ta => ta.decimals
        | none => 6
      some { signature := sig, slot := slot, blockTime := blockTime,
             source := ix.info.source, destination := ix.info.destination,
             amountRaw := amtRaw, amount := (amtRaw : ℚ) / 10 ^ dec,
             kind := "transferChecked" }
    else if ix.kind = "transfer" ∧ ix.info.amount.isSome then
      let touchedUSDT :=
        meta.postTokenBalances.any (fun b => b.mint = USDT_MINT) ||
        meta.preTokenBalances.any (fun b => b.mint = USDT_MINT)
      if touchedUSDT then
        let amtRaw : Nat := ix.info.amount.getD 0
        some { signature := sig, slot := slot, blockTime := blockTime,
               source := ix.info.source, destination := ix.info.destination,
               amountRaw := amtRaw, amount := (amtRaw : ℚ) / 1000000,
               kind := "transfer" }
      else none
    else none
  | _, _ => none

/-- Per-signature extraction: fetch the transaction (`none` models both a
null result and a caught fetch failure, which the source treats alike),
concatenate top-level and inner instructions, and return the event of the
first matching instruction (the loop body `return`s on the first match). -/
def extractFromTx (getTx : String → Option Tx) (slot : Nat) (blockTime : Option Int)
    (sig : String) : Option UsdtEvent :=
  match getTx sig with
  | none => none
  | some tx =>
    (tx.instructions ++ tx.meta.innerInstructions.flatten).findSome?
      (instrEvent slot blockTime sig tx.meta)

/-- The batched signature loop of `extractUsdtTransfersFromBlock`:
`for (let i = 0; i < Math.min(signatures.length, cap); i += bsz)` over
slices `signatures.slice(i, i + bsz)`.  The loop index `i` advances by
`bsz` per iteration and the caps in both sources (100/10 and 50/5) allow
at most 10 iterations, which bounds the structural fuel. -/
def extractLoop (f : String → Option UsdtEvent) (sigs : List String) (cap bsz : Nat) :
    Nat → Nat → List UsdtEvent
  | 0, _ => []
  | fuel + 1, i =>
    if i < min sigs.length cap then
      ((sigs.drop i).take bsz).filterMap f ++ extractLoop f sigs cap bsz fuel (i + bsz)
    else []

/-- `extractUsdtTransfersFromBlock` of poll-usdt.ts (lines 124-223): empty
guard, then the batched loop over the first 100 signatures in batches of
10; transactions are fetched per signature and the first match per
transaction is emitted. -/
def extractUsdtTransfersFromBlock (getTx : String → Option Tx) (block : Block) :
    List UsdtEvent :=
  if block.signatures.isEmpty then []
  else
    extractLoop (extractFromTx getTx block.slot block.blockTime)
      block.signatures 100 10 10 0

/-- The solana-service copy of `extractUsdtTransfersFromBlock`
(flagService.ts bundle, lines 414-494): identical matching, but a cap of
50 signatures in batches of 5. -/
def extractUsdtTransfersFromBlock_svc (getTx : String → Option Tx) (block : Block) :
    List UsdtEvent :=
  if block.signatures.isEmpty then []
  else
    extractLoop (extractFromTx getTx block.slot block.blockTime)
      block.signatures 50 5 10 0

/-! ## Sink: transaction repository upsert and service enrichment -/

/-- The persisted transfer record: the fields
`TransactionRepository.upsert` writes (transactionRepository.ts lines
229-267).  `tsISO` is the timestamp in milliseconds; the JSON
stringification of the three list fields is elided (the lists are stored
directly); the database-generated `id` and `createdAt`/`updatedAt`
bookkeeping are outside the model. -/
structure TxRecord where
  sig : String
  tsISO : Int
  slot : Nat
  status : String
  fromAddr : String
  toAddr : String
  amountUSDT : ℚ
  risk : Int
  riskFactors : List String
  labels : List String
  hints : List String
  metadata : Option String
deriving DecidableEq

/-- `prisma.transaction.upsert({where: {sig}, create, update})`: if a
record with the signature exists, overwrite its mutable fields, else
insert.  The store is a list of records keyed by `sig`. -/
def TransactionRepository.upsert (db : List TxRecord) (r : TxRecord) : List TxRecord :=
  if db.any (fun x => x.sig = r.sig) then
    db.map (fun x => if x.sig = r.sig then r else x)
  else db ++ [r]

/-- `TransactionService.calculateRiskScore`: amount brackets, off-hours,
self-transfer and short-address penalties, clamped to `[0, 100]`.
`hourOf` abstracts JavaScript's timezone-dependent `Date.getHours()`. -/
def calculateRiskScore (hourOf : Int → Nat) (t : TxRecord) : Int :=
  let r1 : Int :=
    if t.amountUSDT > 100000 then 30
    else if t.amountUSDT > 10000 then 15
    else if t.amountUSDT > 1000 then 5
    else 0
  let hour := hourOf t.tsISO
  let r2 := r1 + (if hour < 6 ∨ hour > 22 then 10 else 0)
  let r3 := r2 + (if t.fromAddr = t.toAddr then 50 else 0)
  let r4 := r3 + (if t.fromAddr.length < 40 ∨ t.toAddr.length < 40 then 20 else 0)
  min 100 (max 0 r4)

/-- `TransactionService.generateLabels`. -/
def generateLabels (t : TxRecord) : List String :=
  let l :=
    (if t.amountUSDT > 100000 then ["large-amount"] else []) ++
    (if t.amountUSDT < 1 then ["dust"] else []) ++
    (if t.fromAddr = t.toAddr then ["self-transfer"] else [])
  if l.isEmpty then ["normal"] else l

/-- `TransactionService.generateHints`. -/
def generateHints (hourOf : Int → Nat) (t : TxRecord) : List String :=
  (if t.amountUSDT > 100000 then ["Large amount - requires additional scrutiny"] else []) ++
  (if t.risk > 70 then ["High risk transaction - investigate thoroughly"] else []) ++
  (if hourOf t.tsISO < 6 ∨ hourOf t.tsISO > 22 then ["Off-hours transaction"] else [])

/-- `TransactionService.generateRiskFactors`. -/
def generateRiskFactors (hourOf : Int → Nat) (t : TxRecord) : List String :=
  (if t.amountUSDT > 100000 then ["large_amount"] else []) ++
  (if t.risk > 70 then ["high_risk_score"] else []) ++
  (if t.fromAddr = t.toAddr then ["self_transfer"] else []) ++
  (if hourOf t.tsISO < 6 ∨ hourOf t.tsISO > 22 then ["off_hours"] else [])

/-- `TransactionService.enrichTransactionData`: fill risk, labels, hints
and risk factors when they are unset, in that order (the source mutates
`data` in place, so later steps see the updated risk). -/
def enrichTransactionData (hourOf : Int → Nat) (d : TxRecord) : TxRecord :=
  let d1 := if d.risk = 0 then { d with risk := calculateRiskScore hourOf d } else d
  let d2 := if d1.labels.isEmpty then { d1 with labels := generateLabels d1 } else d1
  let d3 := if d2.hints.isEmpty then { d2 with hints := generateHints hourOf d2 } else d2
  if d3.riskFactors.isEmpty then { d3 with riskFactors := generateRiskFactors hourOf d3 }
  else d3

/-- `TransactionService.upsertTransaction`: enrich, then the repository
upsert keyed by signature. -/
def upsertTransaction (hourOf : Int → Nat) (db : List TxRecord) (d : TxRecord) :
    List TxRecord :=
  TransactionRepository.upsert db (enrichTransactionData hourOf d)

/-! ## Dedup guard, write filter, and the polling cycle -/

/-- One step of the dedup guard (poll-usdt.ts lines 284-287):
`if (ev.signature && !seen.has(ev.signature))` — a string is truthy iff
nonempty — then insert the signature and emit the event.  The seen set is
a list kept duplicate-free by the membership guard; JavaScript `Set.size`
is its length. -/
def dedupStep (acc : List String × List UsdtEvent) (ev : UsdtEvent) :
    List String × List UsdtEvent :=
  if ev.signature ≠ "" ∧ ev.signature ∉ acc.1 then
    (ev.signature :: acc.1, acc.2 ++ [ev])
  else acc

/-- The dedup pass over one cycle's raw extracted events: returns the
grown seen set and the emitted (deduplicated) events in order. -/
def dedupFold (seen : List String) (evs : List UsdtEvent) :
    List String × List UsdtEvent :=
  evs.foldl dedupStep (seen, [])

/-- End-of-cycle trim (poll-usdt.ts line 323):
`if (seen.size > 50000) seen = new Set()`. -/
def trimSeen (seen : List String) : List String :=
  if seen.length > 50000 then [] else seen

/-- The write-loop guard (poll-usdt.ts line 293):
`if (!e.blockTime || !e.source || !e.destination || !e.amount) continue`.
JavaScript falsiness: a null or zero block time, an absent or empty
source/destination string, and a zero amount all fail the filter. -/
def passesWriteFilter (e : UsdtEvent) : Bool :=
  (match e.blockTime with | none => false | some t => t ≠ 0) &&
  (match e.source with | none => false | some a => a ≠ "") &&
  (match e.destination with | none => false | some a => a ≠ "") &&
  (e.amount ≠ 0)

/-- The record the poller hands to `upsertTransaction` (poll-usdt.ts lines
294-310).  The `getD` defaults are never exercised: the filter has already
established that blockTime, source and destination are present. -/
def mkTxData (e : UsdtEvent) : TxRecord :=
  { sig := e.signature
    tsISO := e.blockTime.getD 0 * 1000
    slot := e.slot
    status := "confirmed"
    fromAddr := e.source.getD ""
    toAddr := e.destination.getD ""
    amountUSDT := e.amount
    risk := 0
    riskFactors := []
    labels := []
    hints := []
    metadata := none }

/-- The RPC and storage environment of a single `pollUsdtOnce` cycle.
Fallible upstream calls return `Option`; `sinkOk` tells whether the
per-record `upsertTransaction` call succeeds (its failure is caught and
logged by the source); `cursorWriteOk` tells whether the
`ingestionCursor.upsert` call succeeds (its failure propagates). -/
structure PollEnv where
  nowSec : Int
  lookbackSec : Int
  headSlot : Nat
  blockTimeOf : Nat → Option Int
  getBlocks : Nat → Nat → Option (List Nat)
  getBlock : Nat → Option Block
  getTx : String → Option Tx
  sinkOk : String → Bool
  cursorWriteOk : Bool
  hourOf : Int → Nat

/-- The durable and process-local state carried across cycles: the
`rpc_polling` cursor's `lastSlot`, the transaction table, and the
process-local seen set. -/
structure PollState where
  cursor : Option Nat
  sink : List TxRecord
  seen : List String
deriving DecidableEq

/-- Window lower bound (poll-usdt.ts lines 235-244): resume from the
cursor when it is set (BigInt 0 is falsy) and not ahead of the head,
intersected with the time-based lower bound; clamp to the head. -/
def cycleStartSlot (env : PollEnv) (s : PollState) : Nat :=
  let endSlot := env.headSlot
  let since := env.nowSec - env.lookbackSec
  let st :=
    match s.cursor with
    | some last =>
      if last ≠ 0 ∧ last ≤ endSlot then
        min last (findStartSlotAtOrBefore env.blockTimeOf since endSlot)
      else findStartSlotAtOrBefore env.blockTimeOf since endSlot
    | none => findStartSlotAtOrBefore env.blockTimeOf since endSlot
  if endSlot < st then endSlot else st

/-- The window's candidate slot list: `getBlocks(startSlot, endSlot)`;
`none` models the RPC call throwing. -/
def cycleSlots (env : PollEnv) (s : PollState) : Option (List Nat) :=
  env.getBlocks (cycleStartSlot env s) env.headSlot

/-- The raw event stream of the window (poll-usdt.ts lines 258-282): fetch
each slot's block — a caught failure contributes `null` and is skipped —
and concatenate the per-block extractions in slot order. -/
def rawEventsOfSlots (env : PollEnv) (slots : List Nat) : List UsdtEvent :=
  slots.foldl
    (fun acc sl =>
      match env.getBlock sl with
      | none => acc
      | some blk => acc ++ extractUsdtTransfersFromBlock env.getTx blk)
    []

/-- The events a cycle emits past the dedup guard (the `events` array the
write loop runs over). -/
def emittedEvents (env : PollEnv) (s : PollState) : List UsdtEvent :=
  match cycleSlots env s with
  | none => []
  | some slots => (dedupFold s.seen (rawEventsOfSlots env slots)).2

/-- One write-loop step (poll-usdt.ts lines 291-314): filter, then
`upsertTransaction`; a failed upsert is caught and logged, leaving the
store unchanged. -/
def writeStep (env : PollEnv) (db : List TxRecord) (e : UsdtEvent) : List TxRecord :=
  if passesWriteFilter e then
    if env.sinkOk e.signature then upsertTransaction env.hourOf db (mkTxData e)
    else db
  else db

/-- The full write loop over the emitted events. -/
def writeFold (env : PollEnv) (db : List TxRecord) (evs : List UsdtEvent) :
    List TxRecord :=
  evs.foldl (writeStep env) db

/-- One `pollUsdtOnce` cycle (poll-usdt.ts lines 227-324), returning the
new state and whether the cycle completed without throwing:
load cursor and head, compute the window, enumerate candidate slots
(failure aborts with no state change), on an empty slot list advance the
cursor to `endSlot + 1` and return; otherwise fetch/extract/dedup, run the
write loop (per-record failures swallowed), advance the cursor to
`endSlot + 1` — a cursor write failure aborts after the sink writes and
before the seen-set trim — and finally trim the seen set. -/
def pollUsdtOnce (env : PollEnv) (s : PollState) : PollState × Bool :=
  match cycleSlots env s with
  | none => (s, false)
  | some slots =>
    if slots.isEmpty then
      if env.cursorWriteOk then ({ s with cursor := some (env.headSlot + 1) }, true)
      else (s, false)
    else
      let d := dedupFold s.seen (rawEventsOfSlots env slots)
      let sink2 := writeFold env s.sink d.2
      if env.cursorWriteOk then
        ({ cursor := some (env.headSlot + 1), sink := sink2, seen := trimSeen d.1 }, true)
      else
        ({ cursor := s.cursor, sink := sink2, seen := d.1 }, false)

/-! ## The per-slot retry loop of `fetchRecentUsdtTransfers`

(flagService.ts bundle, lines 587-641.)  An attempt's outcome is either a
returned block (possibly null), a rate limit (message contains 429), an
oversized/unparseable response, or a generic failure. -/

/-- Outcome of one `getBlock` attempt as classified by the catch branch. -/
inductive FetchOutcome where
  | ok (b : Option Block)
  | rateLimited
  | oversized
  | generic
deriving DecidableEq

/-- The retry loop for one slot, `while (retries <= maxRetries && !block)`
with `maxRetries = 2`.  `att n` is the outcome of the n-th attempt; `k` is
the remaining attempt budget `maxRetries + 1 - retries` (3 at entry), `i`
counts attempts made, `acc` collects the milliseconds slept in order
(200 after a success, 1000 after a rate limit, 500 between generic
retries).  Returns what was pushed onto `chunks` for this slot (`none` =
nothing pushed, `some none` = a null was pushed), the attempt count, and
the sleep trace. -/
def fetchBlockGo (att : Nat → FetchOutcome) :
    Nat → Nat → List Nat → Option (Option Block) × Nat × List Nat
  | 0, i, acc => (none, i, acc)
  | k + 1, i, acc =>
    match att i with
    | .ok b => (some b, i + 1, acc ++ [200])
    | .oversized => (some none, i + 1, acc)
    | .rateLimited => fetchBlockGo att k (i + 1) (acc ++ [1000])
    | .generic =>
      if 1 ≤ k then fetchBlockGo att k (i + 1) (acc ++ [500])
      else (some none, i + 1, acc)

/-- The retry loop entered with `retries = 0` and no block. -/
def fetchBlockWithRetries (att : Nat → FetchOutcome) :
    Option (Option Block) × Nat × List Nat :=
  fetchBlockGo att 3 0 []

/-- The window's `chunks` array: per-slot results of the retry loop, in
slot order (`att sl n` = outcome of the n-th attempt for slot `sl`). -/
def scanChunks (att : Nat → Nat → FetchOutcome) (slots : List Nat) :
    List (Option Block) :=
  slots.flatMap (fun sl => ((fetchBlockWithRetries (att sl)).1).toList)

/-- The push-then-check accumulation of the event loop (flagService.ts
bundle, lines 659-671): push each event, breaking out of both loops once
`events.length >= limit`. -/
def collectLimited (limit : Nat) : List UsdtEvent → List UsdtEvent → List UsdtEvent
  | acc, [] => acc
  | acc, e :: rest =>
    let acc2 := acc ++ [e]
    if limit ≤ acc2.length then acc2 else collectLimited limit acc2 rest

/-- The events of one `fetchRecentUsdtTransfers` window before the final
newest-first sort: extract from each retrieved (non-null) chunk with the
service extractor, limited by the caller's `limit`. -/
def svcWindowEvents (att : Nat → Nat → FetchOutcome) (getTx : String → Option Tx)
    (slots : List Nat) (limit : Nat) : List UsdtEvent :=
  collectLimited limit []
    ((scanChunks att slots).flatMap
      (fun ob =>
        match ob with
        | none => []
        | some blk => extractUsdtTransfersFromBlock_svc getTx blk))

/-! ## Specification-side predicates (for comparison with the code) -/

/-- The qualifying-instruction predicate exactly as the specification
claim words it: (a) the program is the token program, the declared type is
transferChecked and its mint equals the tracked mint, OR (b) the type is
transfer carrying an amount and the pre/post token balance snapshots
mention the tracked mint — with no program requirement in branch (b). -/
def claimQualifiesIx (meta : TxMeta) (ins : Instr) : Bool :=
  match ins.parsed with
  | some ix =>
    (ins.program == some "spl-token" && ix.kind == "transferChecked" &&
      ix.info.mint == some USDT_MINT) ||
    (ix.kind == "transfer" && ix.info.amount.isSome &&
      (meta.postTokenBalances.any (fun b => b.mint = USDT_MINT) ||
       meta.preTokenBalances.any (fun b => b.mint = USDT_MINT)))
  | none => false

/-- The qualifying-instruction predicate as amended to match the code:
branch (b) additionally requires the instruction's program to be the
token program (the source's loop skips any instruction whose program is
not spl-token before looking at its type). -/
def qualifiesIx (meta : TxMeta) (ins : Instr) : Bool :=
  match ins.parsed, ins.program with
  | some ix, some prog =>
    prog == "spl-token" &&
    ((ix.kind == "transferChecked" && ix.info.mint == some USDT_MINT) ||
     (ix.kind == "transfer" && ix.info.amount.isSome &&
       (meta.postTokenBalances.any (fun b => b.mint = USDT_MINT) ||
        meta.preTokenBalances.any (fun b => b.mint = USDT_MINT))))
  | _, _ => false

/-- Key uniqueness of a transaction store: no two records share a
signature (the database's unique constraint on `sig`). -/
def sigsNodup (db : List TxRecord) : Prop :=
  (db.map (fun r => r.sig)).Nodup

/-! ## Concrete fixtures used by witnesses and counterexamples -/

/-- The synthetic block-time table of the specification's slot-locator
test vector: slot 10 at time 100, 20 at 200, 30 at 300, 50 at 500, and
slot 40 (like every other slot) skipped. -/
def synthBT : Nat → Option Int := fun s =>
  if s = 10 then some 100
  else if s = 20 then some 200
  else if s = 30 then some 300
  else if s = 50 then some 500
  else none

/-- An injective family of nonempty signature strings. -/
def sigName (i : Nat) : String :=
  String.mk (List.replicate (i + 1) 'a')

/-- A transaction with one qualifying transferChecked instruction of
5 USDT (raw 5000000, 6 decimals). -/
def txGood : Tx :=
  { instructions :=
      [{ program := some "spl-token"
         parsed := some
           { kind := "transferChecked"
             info := { mint := some USDT_MINT
                       tokenAmount := some { amount := 5000000, decimals := 6 }
                       source := some "srcA"
                       destination := some "dstB" } } }] }

/-- A transaction with one qualifying transferChecked instruction whose
raw amount is zero (a zero-value transfer). -/
def txZero : Tx :=
  { instructions :=
      [{ program := some "spl-token"
         parsed := some
           { kind := "transferChecked"
             info := { mint := some USDT_MINT
                       tokenAmount := some { amount := 0, decimals := 6 }
                       source := some "srcA"
                       destination := some "dstB" } } }] }

/-- The event `txZero` extracts to, at a given slot and block time. -/
def evZero (sl : Nat) (bt : Option Int) (sig : String) : UsdtEvent :=
  { signature := sig, slot := sl, blockTime := bt
    source := some "srcA", destination := some "dstB"
    amountRaw := 0, amount := 0, kind := "transferChecked" }

/-- The instruction refuting the claim's qualifying rule: a parsed
`transfer` with an amount issued by a program other than spl-token, in a
transaction whose balance snapshots mention the tracked mint. -/
def insBadC6 : Instr :=
  { program := some "system-clone"
    parsed := some { kind := "transfer", info := { amount := some 5 } } }

/-- The transaction holding `insBadC6`, with a post-balance touching the
tracked mint. -/
def txBadC6 : Tx :=
  { instructions := [insBadC6]
    meta := { postTokenBalances := [{ mint := USDT_MINT }] } }

/-- The initial poller state: no cursor, empty sink, empty seen set. -/
def s0 : PollState := { cursor := none, sink := [], seen := [] }

/-- Cycle environment refuting claim C1: one window slot whose block has
one qualifying 5-USDT transfer, but the sink write for it fails
(`sinkOk` is false); the cursor write succeeds. -/
def envC1 : PollEnv :=
  { nowSec := 0, lookbackSec := 0, headSlot := 5
    blockTimeOf := fun _ => none
    getBlocks := fun _ _ => some [3]
    getBlock := fun _ => some { slot := 3, blockTime := some 100, signatures := ["a"] }
    getTx := fun _ => some txGood
    sinkOk := fun _ => false
    cursorWriteOk := true
    hourOf := fun _ => 12 }

/-- Like `envC1` but with a healthy sink, for the witness. -/
def envC1W : PollEnv :=
  { envC1 with sinkOk := fun _ => true }

/-- First cycle environment for the cursor-monotonicity counterexample:
head slot 10, one unretrievable window slot. -/
def envC3A : PollEnv :=
  { nowSec := 0, lookbackSec := 0, headSlot := 10
    blockTimeOf := fun _ => none
    getBlocks := fun _ _ => some [2]
    getBlock := fun _ => none
    getTx := fun _ => none
    sinkOk := fun _ => true
    cursorWriteOk := true
    hourOf := fun _ => 12 }

/-- Second cycle environment: the RPC head regressed to slot 3. -/
def envC3B : PollEnv :=
  { envC3A with headSlot := 3 }

/-- Environment refuting claim C7: the candidate-slot enumeration
succeeds but yields no slots. -/
def envC7 : PollEnv :=
  { envC3A with headSlot := 7, getBlocks := fun _ _ => some [] }

/-- Environment whose `getBlocks` call itself fails. -/
def envC7fail : PollEnv :=
  { envC3A with getBlocks := fun _ _ => none }

/-- Environment whose cursor write fails (with a nonempty window). -/
def envC7cw : PollEnv :=
  { envC3A with cursorWriteOk := false }

/-- The per-slot block of the large ingestion run: slot `sl` carries the
100 fresh signatures numbered `100 * sl .. 100 * sl + 99`. -/
def bigBlock (sl : Nat) : Block :=
  { slot := sl, blockTime := some 1000
    signatures := (List.range 100).map (fun j => sigName (100 * sl + j)) }

/-- A cycle whose window holds 501 blocks of 100 fresh zero-amount
transfers each: 50100 signatures enter the dedup guard in one cycle. -/
def envBig : PollEnv :=
  { nowSec := 0, lookbackSec := 0, headSlot := 500
    blockTimeOf := fun _ => none
    getBlocks := fun _ _ => some (List.range 501)
    getBlock := fun sl => some (bigBlock sl)
    getTx := fun _ => some txZero
    sinkOk := fun _ => true
    cursorWriteOk := true
    hourOf := fun _ => 12 }

/-- The state `envBig` leaves behind: cursor advanced past the head, an
empty sink (every event was zero-amount), and a freshly reset seen set. -/
def stMid : PollState := { cursor := some 501, sink := [], seen := [] }

/-- A later small cycle re-serving the very first signature of the big
run. -/
def envSmall : PollEnv :=
  { nowSec := 0, lookbackSec := 0, headSlot := 600
    blockTimeOf := fun _ => none
    getBlocks := fun _ _ => some [550]
    getBlock := fun _ => some { slot := 550, blockTime := some 1000, signatures := [sigName 0] }
    getTx := fun _ => some txZero
    sinkOk := fun _ => true
    cursorWriteOk := true
    hourOf := fun _ => 12 }

/-- A concrete transfer record for the sink witnesses. -/
def rW : TxRecord :=
  { sig := "a", tsISO := 100000, slot := 3, status := "confirmed"
    fromAddr := "srcA", toAddr := "dstB", amountUSDT := 5, risk := 0
    riskFactors := [], labels := [], hints := [], metadata := none }

/-- Attempt trace: two generic failures, then a successful fetch. -/
def attGen2 : Nat → FetchOutcome := fun n =>
  if n < 2 then .generic
  else .ok (some { slot := 55, blockTime := some 1, signatures := [] })

/-- Attempt trace: every attempt fails generically. -/
def attGenAll : Nat → FetchOutcome := fun _ => .generic

/-- Attempt trace: every attempt is rate-limited. -/
def attRateAll : Nat → FetchOutcome := fun _ => .rateLimited

/-- Attempt trace: rate-limited once, then a successful fetch. -/
def attRate1 : Nat → FetchOutcome := fun n =>
  if n = 0 then .rateLimited
  else .ok (some { slot := 55, blockTime := some 1, signatures := [] })

/-- Per-slot attempt table of the oversized-block scenario: `getBlock(77)`
raises an oversized-response error; slot 88's block holds one qualifying
transfer. -/
def attWin77 : Nat → Nat → FetchOutcome := fun sl _ =>
  if sl = 77 then .oversized
  else .ok (some { slot := sl, blockTime := some 9, signatures := ["w88"] })

/-- Transaction lookup for the witnesses: only the signature "q" (and the
scenario signature "w88") resolves, to a qualifying transfer; other
lookups fail. -/
def getTxW : String → Option Tx := fun s =>
  if s = "q" ∨ s = "w88" then some txGood else none

/-- A block of 101 signatures: the qualifying "q" first, 99 padding
signatures, and a final 101st signature "z" beyond the poller's 100-prefix
(and the service's 50-prefix). -/
def blk101 : Block :=
  { slot := 9, blockTime := some 100
    signatures := "q" :: (List.replicate 99 "x" ++ ["z"]) }

/-! ## Helper lemmas -/

theorem extractLoop_eq (f : String → Option UsdtEvent) (sigs : List String) (cap bsz : Nat)
    (hb : 0 < bsz) (hcap : bsz ∣ cap) :
    ∀ fuel i, bsz ∣ i → min sigs.length cap ≤ i + bsz * fuel →
      extractLoop f sigs cap bsz fuel i = ((sigs.take cap).drop i).filterMap f := by
  intro fuel
  induction fuel with
  | zero =>
    intro i hi hle
    rw [extractLoop, List.drop_eq_nil_of_le, List.filterMap_nil]
    rw [List.length_take]
    omega
  | succ fuel ih =>
    intro i hi hle
    rw [extractLoop]
    by_cases hlt : i < min sigs.length cap
    · rw [if_pos hlt]
      have hib : i + bsz ≤ cap := by
        obtain ⟨a, rfl⟩ := hi
        obtain ⟨c, rfl⟩ := hcap
        have hac : a < c := by
          have h2 := lt_of_lt_of_le hlt (min_le_right _ _)
          exact lt_of_mul_lt_mul_left h2 (Nat.zero_le _)
        calc bsz * a + bsz = bsz * (a + 1) := by ring
          _ ≤ bsz * c := Nat.mul_le_mul_left _ hac
      rw [ih (i + bsz) (hi.add ⟨1, by ring⟩) (by rw [Nat.mul_succ] at hle; omega)]
      rw [← List.filterMap_append]
      congr 1
      rw [List.drop_take, List.drop_take]
      have h1 : cap - i = bsz + (cap - (i + bsz)) := by omega
      rw [h1, List.take_add]
      congr 1
      rw [List.drop_drop]
    · rw [if_neg hlt]
      rw [List.drop_eq_nil_of_le, List.filterMap_nil]
      rw [List.length_take]
      omega



theorem extractBlock_take100 (getTx : String → Option Tx) (blk : Block) :
    extractUsdtTransfersFromBlock getTx blk
      = (blk.signatures.take 100).filterMap (extractFromTx getTx blk.slot blk.blockTime) := by
  unfold extractUsdtTransfersFromBlock
  by_cases h : blk.signatures.isEmpty
  · rw [if_pos h, List.isEmpty_iff.mp h]
    simp
  · rw [if_neg h]
    exact extractLoop_eq _ _ _ _ (by norm_num) (by norm_num) 10 0 ⟨0, rfl⟩
      (by have := min_le_right blk.signatures.length 100; omega)

theorem extractBlock_take50 (getTx : String → Option Tx) (blk : Block) :
    extractUsdtTransfersFromBlock_svc getTx blk
      = (blk.signatures.take 50).filterMap (extractFromTx getTx blk.slot blk.blockTime) := by
  unfold extractUsdtTransfersFromBlock_svc
  by_cases h : blk.signatures.isEmpty
  · rw [if_pos h, List.isEmpty_iff.mp h]
    simp
  · rw [if_neg h]
    exact extractLoop_eq _ _ _ _ (by norm_num) (by norm_num) 10 0 ⟨0, rfl⟩
      (by have := min_le_right blk.signatures.length 50; omega)

theorem instrEvent_sig {slot : Nat} {bt : Option Int} {sig : String} {meta : TxMeta}
    {ins : Instr} {ev : UsdtEvent} (h : instrEvent slot bt sig meta ins = some ev) :
    ev.signature = sig := by
  unfold instrEvent at h
  split at h
  · dsimp only at h
    split_ifs at h <;>
      first
      | exact Option.noConfusion h
      | rw [← Option.some_inj.mp (show some _ = some ev from h)]
  · exact Option.noConfusion h

theorem extractFromTx_sig {getTx : String → Option Tx} {slot : Nat} {bt : Option Int}
    {sig : String} {ev : UsdtEvent} (h : extractFromTx getTx slot bt sig = some ev) :
    ev.signature = sig := by
  unfold extractFromTx at h
  split at h
  · exact Option.noConfusion h
  · obtain ⟨ins, _, hins⟩ := List.exists_of_findSome?_eq_some h
    exact instrEvent_sig hins

theorem findSome?_eq_find?_bind {α β : Type} (f : α → Option β) (l : List α) :
    l.findSome? f = (l.find? (fun a => (f a).isSome)).bind f := by
  induction l with
  | nil => rfl
  | cons a l ih =>
    rw [List.findSome?_cons, List.find?_cons]
    cases hf : f a with
    | none => simp [hf, ih]
    | some b => simp [hf]



theorem instrEvent_isSome_eq (slot : Nat) (bt : Option Int) (sig : String) (meta : TxMeta)
    (ins : Instr) : (instrEvent slot bt sig meta ins).isSome = qualifiesIx meta ins := by
  unfold instrEvent qualifiesIx
  cases hp : ins.parsed with
  | none => simp
  | some ix =>
    cases hq : ins.program with
    | none => simp
    | some prog =>
      dsimp only
      split_ifs with h1 h2 h3 h4 <;> simp_all

theorem dedup_go_seen_mono (evs : List UsdtEvent) :
    ∀ acc : List String × List UsdtEvent, ∀ x, x ∈ acc.1 →
      x ∈ (List.foldl dedupStep acc evs).1 := by
  induction evs with
  | nil => intro acc x hx; exact hx
  | cons e evs ih =>
    intro acc x hx
    rw [List.foldl_cons]
    refine ih _ x ?_
    unfold dedupStep
    split
    · exact List.mem_cons_of_mem _ hx
    · exact hx

theorem dedup_go_not_reemit (evs : List UsdtEvent) :
    ∀ acc : List String × List UsdtEvent, ∀ sig, sig ∈ acc.1 →
      (∀ e ∈ acc.2, e.signature ≠ sig) →
      ∀ e ∈ (List.foldl dedupStep acc evs).2, e.signature ≠ sig := by
  induction evs with
  | nil => intro acc sig hs hout; exact hout
  | cons e evs ih =>
    intro acc sig hs hout
    rw [List.foldl_cons]
    unfold dedupStep
    split
    · rename_i hc
      refine ih _ sig (List.mem_cons_of_mem _ hs) ?_
      intro e' he'
      rcases List.mem_append.mp he' with h1 | h1
      · exact hout e' h1
      · rcases List.mem_singleton.mp h1 with rfl
        intro heq
        exact hc.2 (heq ▸ hs)
    · exact ih _ sig hs hout

theorem dedupFold_not_reemitted {seen : List String} {evs : List UsdtEvent} {sig : String}
    (h : sig ∈ seen) : ∀ e ∈ (dedupFold seen evs).2, e.signature ≠ sig :=
  dedup_go_not_reemit evs (seen, []) sig h (by intro e he; exact absurd he (List.not_mem_nil e))

theorem dedup_go_fresh (evs : List UsdtEvent) :
    ∀ acc : List String × List UsdtEvent,
      (evs.map (fun e => e.signature)).Nodup →
      (∀ e ∈ evs, e.signature ∉ acc.1 ∧ e.signature ≠ "") →
      List.foldl dedupStep acc evs
        = ((evs.map (fun e => e.signature)).reverse ++ acc.1, acc.2 ++ evs) := by
  induction evs with
  | nil => intro acc _ _; simp
  | cons e evs ih =>
    intro acc hnd hfresh
    rw [List.foldl_cons]
    have hce := hfresh e (List.mem_cons_self e evs)
    have hstep : dedupStep acc e = (e.signature :: acc.1, acc.2 ++ [e]) := by
      unfold dedupStep
      rw [if_pos ⟨hce.2, hce.1⟩]
    rw [hstep]
    rw [List.map_cons, List.nodup_cons] at hnd
    have := ih (e.signature :: acc.1, acc.2 ++ [e]) hnd.2 ?_
    · rw [this]
      simp [List.append_assoc]
    · intro e' he'
      constructor
      · intro hmem
        rcases List.mem_cons.mp hmem with h1 | h1
        · exact hnd.1 (h1 ▸ List.mem_map_of_mem _ he')
        · exact (hfresh e' (List.mem_cons_of_mem _ he')).1 h1
      · exact (hfresh e' (List.mem_cons_of_mem _ he')).2

theorem trimSeen_le (l : List String) : (trimSeen l).length ≤ 50000 := by
  unfold trimSeen
  split
  · simp
  · omega


theorem upsert_mem {db : List TxRecord} {r x : TxRecord}
    (hx : x ∈ TransactionRepository.upsert db r) : x ∈ db ∨ x = r := by
  unfold TransactionRepository.upsert at hx
  split at hx
  · obtain ⟨y, hy, hxy⟩ := List.mem_map.mp hx
    by_cases hc : y.sig = r.sig
    · rw [if_pos hc] at hxy
      exact Or.inr hxy.symm
    · rw [if_neg hc] at hxy
      exact Or.inl (hxy ▸ hy)
  · rcases List.mem_append.mp hx with h1 | h1
    · exact Or.inl h1
    · exact Or.inr (List.mem_singleton.mp h1)

theorem upsert_sig_mem (db : List TxRecord) (r : TxRecord) :
    ∃ x ∈ TransactionRepository.upsert db r, x.sig = r.sig := by
  unfold TransactionRepository.upsert
  split
  · rename_i hany
    obtain ⟨y, hy, hys⟩ := List.any_eq_true.mp hany
    refine ⟨r, ?_, rfl⟩
    have hmem : (if y.sig = r.sig then r else y) ∈
        db.map (fun x => if x.sig = r.sig then r else x) :=
      List.mem_map_of_mem (fun x => if x.sig = r.sig then r else x) hy
    rw [if_pos (of_decide_eq_true hys)] at hmem
    exact hmem
  · exact ⟨r, List.mem_append.mpr (Or.inr (List.mem_singleton.mpr rfl)), rfl⟩



theorem upsert_keeps_key {db : List TxRecord} {k : String} (r : TxRecord)
    (h : ∃ x ∈ db, x.sig = k) : ∃ x ∈ TransactionRepository.upsert db r, x.sig = k := by
  obtain ⟨y, hy, hyk⟩ := h
  unfold TransactionRepository.upsert
  split
  · by_cases hc : y.sig = r.sig
    · obtain ⟨x, hx, hxs⟩ := upsert_sig_mem db r
      unfold TransactionRepository.upsert at hx
      rw [if_pos (by rename_i hany; exact hany)] at hx
      exact ⟨x, hx, by rw [hxs, ← hc, hyk]⟩
    · have hmem : (if y.sig = r.sig then r else y) ∈
          db.map (fun x => if x.sig = r.sig then r else x) :=
        List.mem_map_of_mem (fun x => if x.sig = r.sig then r else x) hy
      rw [if_neg hc] at hmem
      exact ⟨y, hmem, hyk⟩
  · exact ⟨y, List.mem_append.mpr (Or.inl hy), hyk⟩

theorem enrichTransactionData_sig (hourOf : Int → Nat) (d : TxRecord) :
    (enrichTransactionData hourOf d).sig = d.sig := by
  unfold enrichTransactionData
  dsimp only
  split_ifs <;> rfl

theorem writeFold_mem (env : PollEnv) (evs : List UsdtEvent) :
    ∀ db r, r ∈ writeFold env db evs →
      r ∈ db ∨ ∃ e ∈ evs, passesWriteFilter e = true ∧ env.sinkOk e.signature = true ∧
        r = enrichTransactionData env.hourOf (mkTxData e) := by
  induction evs with
  | nil => intro db r h; exact Or.inl h
  | cons e evs ih =>
    intro db r h
    unfold writeFold at h
    rw [List.foldl_cons] at h
    rcases ih (writeStep env db e) r h with h1 | h1
    · unfold writeStep at h1
      split_ifs at h1 with hp hs
      · rcases upsert_mem h1 with h2 | h2
        · exact Or.inl h2
        · exact Or.inr ⟨e, List.mem_cons_self e evs, hp, hs, h2⟩
      · exact Or.inl h1
      · exact Or.inl h1
    · obtain ⟨e', he', rest⟩ := h1
      exact Or.inr ⟨e', List.mem_cons_of_mem _ he', rest⟩

theorem writeFold_keeps_key (env : PollEnv) (evs : List UsdtEvent) {k : String} :
    ∀ db, (∃ x ∈ db, x.sig = k) → ∃ x ∈ writeFold env db evs, x.sig = k := by
  induction evs with
  | nil => intro db h; exact h
  | cons e evs ih =>
    intro db h
    unfold writeFold
    rw [List.foldl_cons]
    refine ih _ ?_
    unfold writeStep
    split_ifs
    · exact upsert_keeps_key _ h
    · exact h
    · exact h

theorem writeFold_writes (env : PollEnv) (evs : List UsdtEvent) :
    ∀ db, ∀ e ∈ evs, passesWriteFilter e = true → env.sinkOk e.signature = true →
      ∃ r ∈ writeFold env db evs, r.sig = e.signature := by
  induction evs with
  | nil => intro db e he; exact absurd he (List.not_mem_nil e)
  | cons e0 evs ih =>
    intro db e he hp hs
    rcases List.mem_cons.mp he with rfl | he'
    · unfold writeFold
      rw [List.foldl_cons]
      refine writeFold_keeps_key env evs _ ?_
      unfold writeStep
      rw [if_pos hp, if_pos hs]
      obtain ⟨x, hx, hxs⟩ := upsert_sig_mem db (enrichTransactionData env.hourOf (mkTxData e))
      exact ⟨x, hx, by rw [hxs, enrichTransactionData_sig]; rfl⟩
    · unfold writeFold
      rw [List.foldl_cons]
      exact ih _ e he' hp hs

theorem writeFold_skip (env : PollEnv) (evs : List UsdtEvent)
    (h : ∀ e ∈ evs, passesWriteFilter e = false) : ∀ db, writeFold env db evs = db := by
  induction evs with
  | nil => intro db; rfl
  | cons e evs ih =>
    intro db
    unfold writeFold
    rw [List.foldl_cons]
    have hstep : writeStep env db e = db := by
      unfold writeStep
      rw [if_neg (by rw [h e (List.mem_cons_self e evs)]; exact Bool.false_ne_true)]
    rw [hstep]
    exact ih (fun e' he' => h e' (List.mem_cons_of_mem _ he')) db

theorem passesWriteFilter_spec {e : UsdtEvent} (h : passesWriteFilter e = true) :
    e.blockTime ≠ none ∧ e.source ≠ none ∧ e.destination ≠ none ∧ e.amount ≠ 0 := by
  unfold passesWriteFilter at h
  simp only [Bool.and_eq_true] at h
  obtain ⟨⟨⟨h1, h2⟩, h3⟩, h4⟩ := h
  refine ⟨?_, ?_, ?_, ?_⟩
  · cases hbt : e.blockTime <;> simp_all
  · cases hs : e.source <;> simp_all
  · cases hd : e.destination <;> simp_all
  · simpa using h4



theorem upsert_key_eq {db : List TxRecord} {r : TxRecord} :
    ∀ x ∈ TransactionRepository.upsert db r, x.sig = r.sig → x = r := by
  unfold TransactionRepository.upsert
  split
  · intro x hx hxs
    obtain ⟨y, hy, hxy⟩ := List.mem_map.mp hx
    by_cases hc : y.sig = r.sig
    · rw [if_pos hc] at hxy
      exact hxy.symm
    · rw [if_neg hc] at hxy
      exact absurd (hxy ▸ hxs) hc
  · rename_i hany
    intro x hx hxs
    rcases List.mem_append.mp hx with h1 | h1
    · rw [Bool.not_eq_true, List.any_eq_false] at hany
      exact absurd (decide_eq_true hxs) (by simpa using hany x h1)
    · exact List.mem_singleton.mp h1

theorem upsert_self (db : List TxRecord) (r : TxRecord) :
    TransactionRepository.upsert (TransactionRepository.upsert db r) r
      = TransactionRepository.upsert db r := by
  have hany : ((TransactionRepository.upsert db r).any fun x => decide (x.sig = r.sig)) = true := by
    obtain ⟨x, hx, hxs⟩ := upsert_sig_mem db r
    exact List.any_eq_true.mpr ⟨x, hx, decide_eq_true hxs⟩
  set u := TransactionRepository.upsert db r with hu
  rw [TransactionRepository.upsert, if_pos hany]
  have : ∀ x ∈ u, (if x.sig = r.sig then r else x) = x := by
    intro x hx
    by_cases hc : x.sig = r.sig
    · rw [if_pos hc, upsert_key_eq x (hu ▸ hx) hc]
    · rw [if_neg hc]
  rw [List.map_congr_left this]
  exact List.map_id u



theorem upsert_sig_map_present {db : List TxRecord} {r : TxRecord}
    (h : (db.any fun x => decide (x.sig = r.sig)) = true) :
    (TransactionRepository.upsert db r).map (fun x => x.sig) = db.map (fun x => x.sig) := by
  unfold TransactionRepository.upsert
  rw [if_pos h, List.map_map]
  refine List.map_congr_left ?_
  intro x _
  by_cases hc : x.sig = r.sig
  · simp [hc]
  · simp [hc]

theorem upsert_sig_map_absent {db : List TxRecord} {r : TxRecord}
    (h : ¬(db.any fun x => decide (x.sig = r.sig)) = true) :
    (TransactionRepository.upsert db r).map (fun x => x.sig)
      = db.map (fun x => x.sig) ++ [r.sig] := by
  unfold TransactionRepository.upsert
  rw [if_neg h, List.map_append]
  rfl

theorem upsert_sigsNodup {db : List TxRecord} (r : TxRecord) (h : sigsNodup db) :
    sigsNodup (TransactionRepository.upsert db r) := by
  unfold sigsNodup
  by_cases hany : (db.any fun x => decide (x.sig = r.sig)) = true
  · rw [upsert_sig_map_present hany]
    exact h
  · rw [upsert_sig_map_absent hany]
    rw [List.nodup_append]
    refine ⟨h, List.nodup_singleton _, ?_⟩
    intro a ha hb
    rw [List.mem_singleton.mp hb] at ha
    obtain ⟨y, hy, hys⟩ := List.mem_map.mp ha
    rw [Bool.not_eq_true, List.any_eq_false] at hany
    exact absurd (decide_eq_true hys) (by simpa using hany y hy)

theorem upsert_count_one {db : List TxRecord} (r : TxRecord) (h : sigsNodup db) :
    ((TransactionRepository.upsert db r).map (fun x => x.sig)).count r.sig = 1 := by
  by_cases hany : (db.any fun x => decide (x.sig = r.sig)) = true
  · rw [upsert_sig_map_present hany]
    obtain ⟨y, hy, hys⟩ := List.any_eq_true.mp hany
    have : r.sig ∈ db.map (fun x => x.sig) := by
      have h2 : y.sig ∈ db.map (fun x => x.sig) := List.mem_map_of_mem (fun x => x.sig) hy
      rwa [of_decide_eq_true hys] at h2
    exact List.count_eq_one_of_mem h this
  · rw [upsert_sig_map_absent hany, List.count_append]
    have h0 : (db.map (fun x => x.sig)).count r.sig = 0 := by
      refine List.count_eq_zero_of_not_mem ?_
      intro hmem
      obtain ⟨y, hy, hys⟩ := List.mem_map.mp hmem
      rw [Bool.not_eq_true, List.any_eq_false] at hany
      exact absurd (decide_eq_true hys) (by simpa using hany y hy)
    rw [h0]
    simp



theorem rawEventsOfSlots_eq (env : PollEnv) (slots : List Nat) :
    rawEventsOfSlots env slots
      = slots.flatMap (fun sl =>
          match env.getBlock sl with
          | none => []
          | some blk => extractUsdtTransfersFromBlock env.getTx blk) := by
  unfold rawEventsOfSlots
  suffices haux : ∀ acc : List UsdtEvent,
      slots.foldl (fun acc sl =>
        match env.getBlock sl with
        | none => acc
        | some blk => acc ++ extractUsdtTransfersFromBlock env.getTx blk) acc
      = acc ++ slots.flatMap (fun sl =>
          match env.getBlock sl with
          | none => []
          | some blk => extractUsdtTransfersFromBlock env.getTx blk) by
    rw [haux []]
    rfl
  induction slots with
  | nil => intro acc; simp
  | cons sl slots ih =>
    intro acc
    rw [List.foldl_cons, List.flatMap_cons]
    cases hb : env.getBlock sl with
    | none => rw [ih]; simp
    | some blk => rw [ih]; simp

theorem emittedEvents_eq {env : PollEnv} {s : PollState} {slots : List Nat}
    (h : cycleSlots env s = some slots) :
    emittedEvents env s = (dedupFold s.seen (rawEventsOfSlots env slots)).2 := by
  unfold emittedEvents
  rw [h]

theorem pollUsdtOnce_ok_cursor (env : PollEnv) (s : PollState)
    (h : (pollUsdtOnce env s).2 = true) :
    (pollUsdtOnce env s).1.cursor = some (env.headSlot + 1) := by
  unfold pollUsdtOnce at h ⊢
  cases hcs : cycleSlots env s with
  | none =>
    rw [hcs] at h
    simp at h
  | some slots =>
    rw [hcs] at h
    by_cases he : slots.isEmpty <;> by_cases hcw : env.cursorWriteOk = true <;>
      simp [he, hcw] at h ⊢

theorem pollUsdtOnce_sink_eq (env : PollEnv) (s : PollState) :
    (pollUsdtOnce env s).1.sink = writeFold env s.sink (emittedEvents env s) := by
  unfold pollUsdtOnce emittedEvents
  cases hcs : cycleSlots env s with
  | none => simp [writeFold, dedupFold]
  | some slots =>
    by_cases he : slots.isEmpty <;> by_cases hcw : env.cursorWriteOk = true
    · rw [List.isEmpty_iff.mp he]
      simp [hcw, writeFold, dedupFold, rawEventsOfSlots]
    · rw [List.isEmpty_iff.mp he]
      simp [hcw, writeFold, dedupFold, rawEventsOfSlots]
    · simp [he, hcw]
    · simp [he, hcw]

theorem pollUsdtOnce_ok_seen (env : PollEnv) (s : PollState) {slots : List Nat}
    (hcs : cycleSlots env s = some slots) (hne : slots.isEmpty = false)
    (h : (pollUsdtOnce env s).2 = true) :
    (pollUsdtOnce env s).1.seen
      = trimSeen (dedupFold s.seen (rawEventsOfSlots env slots)).1 := by
  unfold pollUsdtOnce at h ⊢
  rw [hcs] at h ⊢
  by_cases hcw : env.cursorWriteOk = true <;> simp [hne, hcw] at h ⊢

theorem sigName_injective : Function.Injective sigName := by
  intro i j h
  unfold sigName at h
  have hdata : List.replicate (i + 1) 'a' = List.replicate (j + 1) 'a' := by
    have := congrArg String.data h
    simpa using this
  have := congrArg List.length hdata
  simpa using this

theorem sigName_ne_empty (i : Nat) : sigName i ≠ "" := by
  unfold sigName
  intro h
  have := congrArg String.data h
  simp at this

theorem range_flatMap_mul (b : Nat) :
    ∀ a : Nat, (List.range a).flatMap (fun s => (List.range b).map (fun j => b * s + j))
      = List.range (a * b) := by
  intro a
  induction a with
  | zero => simp
  | succ a ih =>
    rw [List.range_succ, List.flatMap_append, ih]
    rw [Nat.succ_mul, List.range_add]
    congr 1
    simp [mul_comm]

theorem extractFromTx_txZero (sl : Nat) (bt : Option Int) (sig : String) :
    extractFromTx (fun _ => some txZero) sl bt sig = some (evZero sl bt sig) := by
  unfold extractFromTx txZero instrEvent evZero
  norm_num [List.findSome?]



theorem extract_bigBlock (sl : Nat) :
    extractUsdtTransfersFromBlock envBig.getTx (bigBlock sl)
      = (bigBlock sl).signatures.map (evZero sl (some 1000)) := by
  rw [extractBlock_take100]
  rw [List.take_of_length_le (by simp [bigBlock])]
  have hf : ∀ s ∈ (bigBlock sl).signatures,
      extractFromTx envBig.getTx (bigBlock sl).slot (bigBlock sl).blockTime s
        = some (evZero sl (some 1000) s) :=
    fun s _ => extractFromTx_txZero sl (some 1000) s
  rw [List.filterMap_congr hf]
  exact congrFun (List.filterMap_eq_map (evZero sl (some 1000))) _

theorem bigRaw_eq :
    rawEventsOfSlots envBig (List.range 501)
      = (List.range 501).flatMap
          (fun sl => (bigBlock sl).signatures.map (evZero sl (some 1000))) := by
  rw [rawEventsOfSlots_eq]
  have hfun : (fun sl =>
      match envBig.getBlock sl with
      | none => ([] : List UsdtEvent)
      | some blk => extractUsdtTransfersFromBlock envBig.getTx blk)
      = fun sl => (bigBlock sl).signatures.map (evZero sl (some 1000)) :=
    funext fun sl => extract_bigBlock sl
  rw [hfun]



theorem bigRaw_sigs :
    (rawEventsOfSlots envBig (List.range 501)).map (fun e => e.signature)
      = (List.range 50100).map sigName := by
  rw [bigRaw_eq, List.map_flatMap]
  have h1 : (fun sl => ((bigBlock sl).signatures.map (evZero sl (some 1000))).map
      (fun e => e.signature)) = fun sl => (List.range 100).map (fun j => sigName (100 * sl + j)) := by
    funext sl
    rw [List.map_map]
    rfl
  rw [h1]
  have h2 : (fun sl => (List.range 100).map (fun j => sigName (100 * sl + j)))
      = fun sl => ((List.range 100).map (fun j => 100 * sl + j)).map sigName := by
    funext sl
    rw [List.map_map]
    rfl
  rw [h2]
  calc (List.range 501).flatMap (fun sl => ((List.range 100).map (fun j => 100 * sl + j)).map sigName)
      = ((List.range 501).flatMap (fun sl => (List.range 100).map (fun j => 100 * sl + j))).map sigName := by
        rw [List.map_flatMap]
    _ = (List.range 50100).map sigName := by rw [range_flatMap_mul]

theorem bigRaw_sigs_nodup :
    ((rawEventsOfSlots envBig (List.range 501)).map (fun e => e.signature)).Nodup := by
  rw [bigRaw_sigs]
  exact (List.nodup_range 50100).map sigName_injective

theorem bigRaw_length : (rawEventsOfSlots envBig (List.range 501)).length = 50100 := by
  have := congrArg List.length bigRaw_sigs
  simpa using this

theorem bigRaw_mem {e : UsdtEvent} (h : e ∈ rawEventsOfSlots envBig (List.range 501)) :
    ∃ sl s, e = evZero sl (some 1000) s := by
  rw [bigRaw_eq] at h
  obtain ⟨sl, _, hmem⟩ := List.mem_flatMap.mp h
  obtain ⟨s, _, rfl⟩ := List.mem_map.mp hmem
  exact ⟨sl, s, rfl⟩

theorem bigRaw_sig_mem {e : UsdtEvent} (h : e ∈ rawEventsOfSlots envBig (List.range 501)) :
    ∃ i, e.signature = sigName i := by
  have hm : e.signature ∈ (rawEventsOfSlots envBig (List.range 501)).map (fun e => e.signature) :=
    List.mem_map_of_mem _ h
  rw [bigRaw_sigs] at hm
  obtain ⟨i, _, hi⟩ := List.mem_map.mp hm
  exact ⟨i, hi.symm⟩

theorem bigDedup :
    dedupFold ([] : List String) (rawEventsOfSlots envBig (List.range 501))
      = (((rawEventsOfSlots envBig (List.range 501)).map (fun e => e.signature)).reverse,
         rawEventsOfSlots envBig (List.range 501)) := by
  unfold dedupFold
  have h := dedup_go_fresh (rawEventsOfSlots envBig (List.range 501)) ([], [])
    bigRaw_sigs_nodup ?_
  · rw [h]
    simp
  · intro e he
    refine ⟨List.not_mem_nil _, ?_⟩
    obtain ⟨i, hi⟩ := bigRaw_sig_mem he
    rw [hi]
    exact sigName_ne_empty i



theorem pollUsdtOnce_nonempty {env : PollEnv} {s : PollState} {slots : List Nat}
    (hcs : cycleSlots env s = some slots) (hne : slots.isEmpty = false)
    (hcw : env.cursorWriteOk = true) :
    pollUsdtOnce env s =
      ({ cursor := some (env.headSlot + 1)
         sink := writeFold env s.sink (dedupFold s.seen (rawEventsOfSlots env slots)).2
         seen := trimSeen (dedupFold s.seen (rawEventsOfSlots env slots)).1 }, true) := by
  unfold pollUsdtOnce
  rw [hcs]
  simp [hne, hcw]

theorem passes_evZero (sl : Nat) (s : String) :
    passesWriteFilter (evZero sl (some 1000) s) = false := rfl

theorem pollUsdtOnce_envBig : pollUsdtOnce envBig s0 = (stMid, true) := by
  rw [pollUsdtOnce_nonempty (show cycleSlots envBig s0 = some (List.range 501) from rfl) (by simp) rfl,
    show s0.seen = ([] : List String) from rfl,
    show s0.sink = ([] : List TxRecord) from rfl, bigDedup]
  have hsink : writeFold envBig [] (rawEventsOfSlots envBig (List.range 501)) = [] :=
    writeFold_skip _ _
      (fun e he => by obtain ⟨sl, s, rfl⟩ := bigRaw_mem he; exact passes_evZero sl s) []
  have hseen : trimSeen
      (((rawEventsOfSlots envBig (List.range 501)).map (fun e => e.signature)).reverse) = [] := by
    unfold trimSeen
    rw [if_pos]
    rw [List.length_reverse, List.length_map, bigRaw_length]
    omega
  rw [hsink, hseen]
  rfl



theorem fetchBlockGo_attempts (att : Nat → FetchOutcome) :
    ∀ k i acc, (fetchBlockGo att k i acc).2.1 ≤ i + k := by
  intro k
  induction k with
  | zero => intro i acc; simp [fetchBlockGo]
  | succ k ih =>
    intro i acc
    unfold fetchBlockGo
    cases att i with
    | ok b => simp
    | oversized => simp
    | rateLimited =>
      refine le_trans (ih (i + 1) _) ?_
      omega
    | generic =>
      by_cases hk : 1 ≤ k
      · rw [if_pos hk]
        refine le_trans (ih (i + 1) _) ?_
        omega
      · rw [if_neg hk]
        simp

theorem binSearch_congr (bt : Nat → Option Int) (t : Int) {lo lo' hi hi' best best' : Nat}
    (h1 : lo = lo') (h2 : hi = hi') (h3 : best = best')
    (p : 1 ≤ lo) (p' : 1 ≤ lo') :
    binSearch bt t lo hi best p = binSearch bt t lo' hi' best' p' := by
  subst h1; subst h2; subst h3; rfl

theorem probeBack_synth : ∀ p, probeBack synthBT 250 1 50 64 p = (1, 50) := by
  intro p
  rw [probeBack]
  norm_num

theorem binSearch_synth : ∀ p, binSearch synthBT 250 1 50 1 p = 1 := by
  intro p
  rw [binSearch]; norm_num [synthBT]
  rw [binSearch]; norm_num [synthBT]
  rw [binSearch]; norm_num [synthBT]
  rw [binSearch]; norm_num [synthBT]
  rw [binSearch]; norm_num [synthBT]
  rw [binSearch]; norm_num [synthBT]

theorem findStartSlot_synth : findStartSlotAtOrBefore synthBT 250 50 = 1 := by
  rw [findStartSlotAtOrBefore]
  norm_num [synthBT]
  rw [binSearch_congr synthBT 250 (congrArg Prod.fst (probeBack_synth _))
    (congrArg Prod.snd (probeBack_synth _)) (congrArg Prod.fst (probeBack_synth _)) _
    (by norm_num)]
  exact le_of_eq (binSearch_synth _)

theorem findStartSlot_synth_svc : findStartSlotAtOrBefore_svc synthBT 250 50 = 1 := by
  rw [findStartSlotAtOrBefore_svc]
  norm_num [synthBT]
  rw [binSearch_congr synthBT 250 (congrArg Prod.fst (probeBack_synth _))
    (congrArg Prod.snd (probeBack_synth _)) (congrArg Prod.fst (probeBack_synth _)) _
    (by norm_num)]
  exact le_of_eq (binSearch_synth _)

theorem findStartSlot_ge_one (bt : Nat → Option Int) (t : Int) (endSlot : Nat) :
    1 ≤ findStartSlotAtOrBefore bt t endSlot := by
  unfold findStartSlotAtOrBefore
  by_cases h : endSlot ≤ 1
  · rw [if_pos h]
  · rw [if_neg h]
    exact le_max_left _ _

theorem findStartSlot_svc_ge_one (bt : Nat → Option Int) (t : Int) (endSlot : Nat) :
    1 ≤ findStartSlotAtOrBefore_svc bt t endSlot := by
  unfold findStartSlotAtOrBefore_svc
  by_cases h : endSlot ≤ 1
  · rw [if_pos h]
  · rw [if_neg h]
    exact le_max_left _ _

theorem extractFromTx_eq_find (getTx : String → Option Tx) (slot : Nat) (bt : Option Int)
    (sig : String) (tx : Tx) (h : getTx sig = some tx) :
    extractFromTx getTx slot bt sig
      = ((tx.instructions ++ tx.meta.innerInstructions.flatten).find?
          (qualifiesIx tx.meta)).bind (instrEvent slot bt sig tx.meta) := by
  unfold extractFromTx
  rw [h]
  dsimp only
  rw [findSome?_eq_find?_bind]
  have hp : (fun a => (instrEvent slot bt sig tx.meta a).isSome) = qualifiesIx tx.meta :=
    funext fun a => instrEvent_isSome_eq slot bt sig tx.meta a
  rw [hp]

/-! ## Claims -/

theorem dedup_go_emitted_seen (evs : List UsdtEvent) :
    ∀ acc : List String × List UsdtEvent,
      (∀ e ∈ acc.2, e.signature ∈ acc.1) →
      ∀ e ∈ (List.foldl dedupStep acc evs).2, e.signature ∈ (List.foldl dedupStep acc evs).1 := by
  induction evs with
  | nil => intro acc h; exact h
  | cons ev evs ih =>
    intro acc h
    rw [List.foldl_cons]
    refine ih _ ?_
    unfold dedupStep
    split
    · intro e he
      rcases List.mem_append.mp he with h1 | h1
      · exact List.mem_cons_of_mem _ (h e h1)
      · rw [List.mem_singleton.mp h1]
        exact List.mem_cons_self _ _
    · exact h

theorem foldl_upsertTx_nodup (hourOf : Int → Nat) (evs : List UsdtEvent) :
    ∀ db, sigsNodup db →
      sigsNodup (evs.foldl (fun acc e => upsertTransaction hourOf acc (mkTxData e)) db) := by
  induction evs with
  | nil => intro db h; exact h
  | cons e evs ih =>
    intro db h
    rw [List.foldl_cons]
    exact ih _ (upsert_sigsNodup _ h)



/-- C4 (amended): the slot locator always returns a slot clamped to at
least 1, but on the specification's own synthetic block-time table
(times 100/200/300 at slots 10/20/30, 500 at slot 50, all other slots
null) with target 250 and upper bound 50 it returns 1, not 20: a null
midpoint is treated as after the target, which discards the whole upper
half of the bracket — including slot 20, the highest slot with a non-null
time at or before the target.  Both the poller's and the service's copy
behave identically. -/
theorem claim_C4 :
    (∀ bt t e, 1 ≤ findStartSlotAtOrBefore bt t e) ∧
    (∀ bt t e, 1 ≤ findStartSlotAtOrBefore_svc bt t e) ∧
    findStartSlotAtOrBefore synthBT 250 50 = 1 ∧
    findStartSlotAtOrBefore_svc synthBT 250 50 = 1 :=
  ⟨findStartSlot_ge_one, findStartSlot_svc_ge_one, findStartSlot_synth, findStartSlot_synth_svc⟩

/-- C4 counterexample: the claim's concrete test vector fails on the
code — the locator returns 1, not 20, in both copies. -/
theorem claim_C4_counterexample :
    findStartSlotAtOrBefore synthBT 250 50 = 1 ∧
    findStartSlotAtOrBefore synthBT 250 50 ≠ 20 ∧
    findStartSlotAtOrBefore_svc synthBT 250 50 = 1 ∧
    findStartSlotAtOrBefore_svc synthBT 250 50 ≠ 20 := by
  refine ⟨findStartSlot_synth, ?_, findStartSlot_synth_svc, ?_⟩
  · rw [findStartSlot_synth]; norm_num
  · rw [findStartSlot_synth_svc]; norm_num

/-- C2: the sink upsert is idempotent on signature.  Under the database's
unique-key invariant: upserting the same record twice gives the same store
as once, and exactly one stored record carries the signature; the
service-level upsert (enrichment then repository upsert) is likewise
idempotent; and applying extraction to the same block twice, upserting
every event both times, leaves a store with no duplicate signatures. -/
theorem claim_C2 (hourOf : Int → Nat) (db : List TxRecord) (r d : TxRecord)
    (getTx : String → Option Tx) (blk : Block) (h : sigsNodup db) :
    TransactionRepository.upsert (TransactionRepository.upsert db r) r
        = TransactionRepository.upsert db r ∧
    ((TransactionRepository.upsert db r).map (fun x => x.sig)).count r.sig = 1 ∧
    upsertTransaction hourOf (upsertTransaction hourOf db d) d
        = upsertTransaction hourOf db d ∧
    sigsNodup ((extractUsdtTransfersFromBlock getTx blk
        ++ extractUsdtTransfersFromBlock getTx blk).foldl
        (fun acc e => upsertTransaction hourOf acc (mkTxData e)) db) := by
  refine ⟨upsert_self db r, upsert_count_one r h,
    upsert_self db (enrichTransactionData hourOf d), ?_⟩
  exact foldl_upsertTx_nodup hourOf _ db h

/-- C2 witness at a concrete store, record and block. -/
theorem claim_C2_witness :
    TransactionRepository.upsert (TransactionRepository.upsert [] rW) rW
        = TransactionRepository.upsert [] rW ∧
    ((TransactionRepository.upsert [] rW).map (fun x => x.sig)).count rW.sig = 1 ∧
    upsertTransaction (fun _ => 12) (upsertTransaction (fun _ => 12) [] rW) rW
        = upsertTransaction (fun _ => 12) [] rW ∧
    sigsNodup ((extractUsdtTransfersFromBlock (fun _ => some txGood)
          { slot := 3, blockTime := some 100, signatures := ["a"] }
        ++ extractUsdtTransfersFromBlock (fun _ => some txGood)
          { slot := 3, blockTime := some 100, signatures := ["a"] }).foldl
        (fun acc e => upsertTransaction (fun _ => 12) acc (mkTxData e)) []) :=
  claim_C2 (fun _ => 12) [] rW rW (fun _ => some txGood)
    { slot := 3, blockTime := some 100, signatures := ["a"] } List.nodup_nil

/-- C9: each extractor inspects only a bounded prefix of the block's
signature list — the first 100 signatures in the poller, the first 50 in
the live-query service — so every emitted event's signature lies in that
prefix, and a signature outside the prefix never yields an event,
independently of any caller parameter (neither extractor takes the
caller's limit or lookback). -/
theorem claim_C9 (getTx : String → Option Tx) (blk : Block) (sig : String) :
    ((∀ ev ∈ extractUsdtTransfersFromBlock getTx blk,
        ev.signature ∈ blk.signatures.take 100) ∧
      (sig ∉ blk.signatures.take 100 →
        ∀ ev ∈ extractUsdtTransfersFromBlock getTx blk, ev.signature ≠ sig)) ∧
    ((∀ ev ∈ extractUsdtTransfersFromBlock_svc getTx blk,
        ev.signature ∈ blk.signatures.take 50) ∧
      (sig ∉ blk.signatures.take 50 →
        ∀ ev ∈ extractUsdtTransfersFromBlock_svc getTx blk, ev.signature ≠ sig)) := by
  have hp : ∀ ev ∈ extractUsdtTransfersFromBlock getTx blk,
      ev.signature ∈ blk.signatures.take 100 := by
    intro ev hev
    rw [extractBlock_take100] at hev
    obtain ⟨a, ha, hfa⟩ := List.mem_filterMap.mp hev
    rw [extractFromTx_sig hfa]
    exact ha
  have hs : ∀ ev ∈ extractUsdtTransfersFromBlock_svc getTx blk,
      ev.signature ∈ blk.signatures.take 50 := by
    intro ev hev
    rw [extractBlock_take50] at hev
    obtain ⟨a, ha, hfa⟩ := List.mem_filterMap.mp hev
    rw [extractFromTx_sig hfa]
    exact ha
  refine ⟨⟨hp, ?_⟩, ⟨hs, ?_⟩⟩
  · intro hout ev hev heq
    exact hout (heq ▸ hp ev hev)
  · intro hout ev hev heq
    exact hout (heq ▸ hs ev hev)

/-- C9 witness: a 101-signature block whose last signature "z" resolves to
a qualifying transfer; no emitted event carries "z" in either extractor. -/
theorem claim_C9_witness :
    ("z" ∈ blk101.signatures) ∧
    (∀ ev ∈ extractUsdtTransfersFromBlock getTxW blk101, ev.signature ≠ "z") ∧
    (∀ ev ∈ extractUsdtTransfersFromBlock_svc getTxW blk101, ev.signature ≠ "z") :=
  ⟨by decide, (claim_C9 getTxW blk101 "z").1.2 (by decide),
    (claim_C9 getTxW blk101 "z").2.2 (by decide)⟩

/-- C6 (amended): per transaction the extractor emits at most one event,
namely for the first instruction (top-level then inner) that qualifies
under the amended rule: the program must be the token program in both
branches — (a) transferChecked with the tracked mint, or (b) transfer
carrying an amount while the balance snapshots mention the tracked
mint. -/
theorem claim_C6 (getTx : String → Option Tx) (slot : Nat) (bt : Option Int) (sig : String)
    (tx : Tx) (h : getTx sig = some tx) :
    extractFromTx getTx slot bt sig
      = ((tx.instructions ++ tx.meta.innerInstructions.flatten).find?
          (qualifiesIx tx.meta)).bind (instrEvent slot bt sig tx.meta) :=
  extractFromTx_eq_find getTx slot bt sig tx h

/-- C6 witness at a concrete lookup and transaction. -/
theorem claim_C6_witness :
    extractFromTx (fun _ => some txGood) 3 (some 100) "a"
      = ((txGood.instructions ++ txGood.meta.innerInstructions.flatten).find?
          (qualifiesIx txGood.meta)).bind (instrEvent 3 (some 100) "a" txGood.meta) :=
  claim_C6 (fun _ => some txGood) 3 (some 100) "a" txGood rfl

/-- C6 counterexample: an instruction of kind transfer with an amount, in
a transaction whose post balances mention the tracked mint, but issued by
a program other than spl-token.  The claim's rule — which requires no
program in branch (b) — says it qualifies, and it is the transaction's
first (and only) instruction, so the claim predicts a TransferEvent; the
code emits none. -/
theorem claim_C6_counterexample :
    claimQualifiesIx txBadC6.meta insBadC6 = true ∧
    txBadC6.instructions = [insBadC6] ∧
    txBadC6.meta.innerInstructions = [] ∧
    extractFromTx (fun _ => some txBadC6) 9 (some 5) "s" = none := by
  refine ⟨by decide, rfl, rfl, ?_⟩
  decide



/-- C1 (amended): in every cycle that completes, the cursor is advanced to
`endSlot + 1` after the write loop has processed the whole window — every
emitted event that passes the write filter and whose upsert succeeds is in
the sink of the resulting state — but a failing record write is caught and
logged and does not prevent the advancement: the cursor advances whether
or not the individual record writes succeeded. -/
theorem claim_C1 (env : PollEnv) (s : PollState) (h : (pollUsdtOnce env s).2 = true) :
    (pollUsdtOnce env s).1.cursor = some (env.headSlot + 1) ∧
    ∀ e ∈ emittedEvents env s, passesWriteFilter e = true →
      env.sinkOk e.signature = true →
      ∃ r ∈ (pollUsdtOnce env s).1.sink, r.sig = e.signature := by
  refine ⟨pollUsdtOnce_ok_cursor env s h, ?_⟩
  intro e he hp hs
  rw [pollUsdtOnce_sink_eq]
  exact writeFold_writes env _ _ e he hp hs

unseal Rat.mul Rat.inv in
/-- C1 witness: a healthy one-slot cycle advances the cursor from none to
6 and lands the record with signature "a" in the sink. -/
theorem claim_C1_witness :
    (pollUsdtOnce envC1W s0).1.cursor = some 6 ∧
    ∃ r ∈ (pollUsdtOnce envC1W s0).1.sink, r.sig = "a" := by
  have h := claim_C1 envC1W s0 (by decide)
  exact ⟨h.1, h.2
    { signature := "a", slot := 3, blockTime := some 100
      source := some "srcA", destination := some "dstB"
      amountRaw := 5000000, amount := 5, kind := "transferChecked" }
    (by decide) (by decide) (by decide)⟩

unseal Rat.mul Rat.inv in
/-- C1 counterexample: a cycle whose only emitted record passes the write
filter but whose sink write fails still completes, leaves the sink empty,
and advances the cursor — refuting "if writing any record of the window
fails, the cursor is not advanced in that cycle". -/
theorem claim_C1_counterexample :
    (emittedEvents envC1 s0).map (fun e => e.signature) = ["a"] ∧
    (∀ e ∈ emittedEvents envC1 s0, passesWriteFilter e = true) ∧
    (pollUsdtOnce envC1 s0).1.sink = [] ∧
    (pollUsdtOnce envC1 s0).2 = true ∧
    (pollUsdtOnce envC1 s0).1.cursor = some 6 := by
  refine ⟨by decide, by decide, by decide, by decide, by decide⟩

/-- C3 (amended): across two consecutive successful cycles the cursor's
lastSlot is non-decreasing provided the chain head reported by getSlot
does not decrease between the cycles; the code writes `headSlot + 1`
unconditionally, so cursor monotonicity is exactly head monotonicity. -/
theorem claim_C3 (env1 env2 : PollEnv) (s : PollState)
    (h1 : (pollUsdtOnce env1 s).2 = true)
    (h2 : (pollUsdtOnce env2 (pollUsdtOnce env1 s).1).2 = true)
    (hm : env1.headSlot ≤ env2.headSlot) :
    (pollUsdtOnce env1 s).1.cursor.getD 0
      ≤ (pollUsdtOnce env2 (pollUsdtOnce env1 s).1).1.cursor.getD 0 := by
  rw [pollUsdtOnce_ok_cursor env1 s h1, pollUsdtOnce_ok_cursor _ _ h2]
  simpa using Nat.succ_le_succ hm

/-- C3 witness: two successful cycles at the same head slot keep the
cursor unchanged (trivially non-decreasing). -/
theorem claim_C3_witness :
    (pollUsdtOnce envC3A s0).1.cursor.getD 0
      ≤ (pollUsdtOnce envC3A (pollUsdtOnce envC3A s0).1).1.cursor.getD 0 :=
  claim_C3 envC3A envC3A s0 (by decide) (by decide) (le_refl _)

/-- C3 counterexample: when the RPC head regresses from 10 to 3 between
two successful cycles, the durable cursor decreases from 11 to 4 — the
code does not clamp the new cursor against the old one. -/
theorem claim_C3_counterexample :
    (pollUsdtOnce envC3A s0).2 = true ∧
    (pollUsdtOnce envC3A s0).1.cursor = some 11 ∧
    (pollUsdtOnce envC3B (pollUsdtOnce envC3A s0).1).2 = true ∧
    (pollUsdtOnce envC3B (pollUsdtOnce envC3A s0).1).1.cursor = some 4 ∧
    ¬ (11 : Nat) ≤ 4 := by decide

/-- C7 (amended): a failure of the getBlocks enumeration itself, or of the
cursor write, aborts the cycle without advancing the cursor; but an
enumeration that succeeds with an EMPTY slot list does not abort — the
cycle advances the cursor to `endSlot + 1` and returns early. -/
theorem claim_C7 (env : PollEnv) (s : PollState) :
    (cycleSlots env s = none → pollUsdtOnce env s = (s, false)) ∧
    (env.cursorWriteOk = false →
      (pollUsdtOnce env s).2 = false ∧ (pollUsdtOnce env s).1.cursor = s.cursor) ∧
    (cycleSlots env s = some [] → env.cursorWriteOk = true →
      pollUsdtOnce env s = ({ s with cursor := some (env.headSlot + 1) }, true)) := by
  refine ⟨?_, ?_, ?_⟩
  · intro h
    unfold pollUsdtOnce
    rw [h]
  · intro hcw
    unfold pollUsdtOnce
    cases hcs : cycleSlots env s with
    | none => exact ⟨rfl, rfl⟩
    | some slots =>
      by_cases he : slots.isEmpty <;> simp [he, hcw]
  · intro hcs hcw
    unfold pollUsdtOnce
    rw [hcs]
    simp [hcw]

/-- C7 witness: the three cases at concrete environments. -/
theorem claim_C7_witness :
    pollUsdtOnce envC7fail s0 = (s0, false) ∧
    ((pollUsdtOnce envC7cw s0).2 = false ∧ (pollUsdtOnce envC7cw s0).1.cursor = s0.cursor) ∧
    pollUsdtOnce envC7 s0 = ({ s0 with cursor := some 8 }, true) :=
  ⟨(claim_C7 envC7fail s0).1 rfl, (claim_C7 envC7cw s0).2.1 rfl,
    (claim_C7 envC7 s0).2.2 rfl rfl⟩

/-- C7 counterexample: with a cursor at 5, an enumeration that yields no
slots completes the cycle successfully and advances the cursor to 8 —
refuting "yields no slots ... aborts without advancing the cursor". -/
theorem claim_C7_counterexample :
    cycleSlots envC7 { cursor := some 5, sink := [], seen := [] } = some [] ∧
    (pollUsdtOnce envC7 { cursor := some 5, sink := [], seen := [] }).2 = true ∧
    (pollUsdtOnce envC7 { cursor := some 5, sink := [], seen := [] }).1.cursor = some 8 ∧
    (some 8 : Option Nat) ≠ some 5 := by decide



theorem trimSeen_id {l : List String} (h : l.length ≤ 50000) : trimSeen l = l := by
  unfold trimSeen
  rw [if_neg (by omega)]

/-- C8 (amended): the dedup guard is reset at the END of a successful
cycle whose window was nonempty — not on the next insert: after such a
cycle the retained seen set is `trimSeen` of the grown set and so holds at
most 50,000 entries; and a signature already present is never re-emitted
by that cycle.  (Within a cycle the set can grow arbitrarily far past the
threshold, as the counterexample shows.) -/
theorem claim_C8 (env : PollEnv) (s : PollState) (slots : List Nat) (sig : String)
    (hcs : cycleSlots env s = some slots) (hne : slots.isEmpty = false)
    (hok : (pollUsdtOnce env s).2 = true) :
    (pollUsdtOnce env s).1.seen
        = trimSeen (dedupFold s.seen (rawEventsOfSlots env slots)).1 ∧
    (pollUsdtOnce env s).1.seen.length ≤ 50000 ∧
    (sig ∈ s.seen → ∀ e ∈ emittedEvents env s, e.signature ≠ sig) := by
  have h1 := pollUsdtOnce_ok_seen env s hcs hne hok
  refine ⟨h1, ?_, ?_⟩
  · rw [h1]
    exact trimSeen_le _
  · intro hmem e he
    rw [emittedEvents_eq hcs] at he
    exact dedupFold_not_reemitted hmem e he

/-- C8 witness: a one-slot cycle from a state whose seen set holds "zz"
keeps the boundary bound and does not re-emit "zz". -/
theorem claim_C8_witness :
    (pollUsdtOnce envC1 { cursor := none, sink := [], seen := ["zz"] }).1.seen
        = trimSeen (dedupFold ["zz"] (rawEventsOfSlots envC1 [3])).1 ∧
    (pollUsdtOnce envC1 { cursor := none, sink := [], seen := ["zz"] }).1.seen.length ≤ 50000 ∧
    (∀ e ∈ emittedEvents envC1 { cursor := none, sink := [], seen := ["zz"] },
        e.signature ≠ "zz") := by
  have h := claim_C8 envC1 { cursor := none, sink := [], seen := ["zz"] } [3] "zz"
    rfl (by decide) (by decide)
  exact ⟨h.1, h.2.1, h.2.2 (by decide)⟩

/-- C8 counterexample: one cycle pushes 50100 distinct signatures through
the dedup guard; after all of them have been inserted the internal set
holds 50100 entries — under the claim (reset to empty on the first insert
after exceeding 50,000) it could never exceed 50,001 — and the reset to
empty happens only at the end of the cycle. -/
theorem claim_C8_counterexample :
    (dedupFold [] (rawEventsOfSlots envBig (List.range 501))).1.length = 50100 ∧
    50000 + 1 < 50100 ∧
    trimSeen (dedupFold [] (rawEventsOfSlots envBig (List.range 501))).1 = [] ∧
    (pollUsdtOnce envBig s0).1.seen = [] := by
  refine ⟨?_, by norm_num, ?_, ?_⟩
  · rw [bigDedup]
    simp [bigRaw_length]
  · rw [bigDedup]
    unfold trimSeen
    rw [if_pos]
    rw [List.length_reverse, List.length_map, bigRaw_length]
    omega
  · rw [pollUsdtOnce_envBig]
    rfl

/-- C10 (amended): a record enters the sink only through an emitted event
that passes the write filter (so its block time is non-null, source and
destination are present, and its amount is nonzero); every emitted event's
signature is inserted into the seen set during emission, before the write
loop; and a signature already in the seen set is not re-emitted by the
cycle, and survives into the next cycle's seen set as long as no reset
intervenes (the end-of-cycle trim fires only past 50,000 entries) — so a
dropped event is not re-emitted until the seen set is next reset, though
it was never persisted. -/
theorem claim_C10 (env : PollEnv) (s : PollState) (slots : List Nat) (sig : String)
    (hcs : cycleSlots env s = some slots) :
    (∀ r ∈ (pollUsdtOnce env s).1.sink, r ∈ s.sink ∨
        ∃ e ∈ emittedEvents env s, passesWriteFilter e = true ∧
          e.blockTime ≠ none ∧ e.source ≠ none ∧ e.destination ≠ none ∧ e.amount ≠ 0 ∧
          r.sig = e.signature) ∧
    (∀ e ∈ emittedEvents env s,
        e.signature ∈ (dedupFold s.seen (rawEventsOfSlots env slots)).1) ∧
    (sig ∈ s.seen →
        (∀ e ∈ emittedEvents env s, e.signature ≠ sig) ∧
        ((dedupFold s.seen (rawEventsOfSlots env slots)).1.length ≤ 50000 →
          (pollUsdtOnce env s).2 = true →
          sig ∈ (pollUsdtOnce env s).1.seen)) := by
  refine ⟨?_, ?_, ?_⟩
  · intro r hr
    rw [pollUsdtOnce_sink_eq] at hr
    rcases writeFold_mem env _ _ r hr with h1 | ⟨e, he, hp, hs, hre⟩
    · exact Or.inl h1
    · obtain ⟨hb, hsrc, hdst, ha⟩ := passesWriteFilter_spec hp
      refine Or.inr ⟨e, he, hp, hb, hsrc, hdst, ha, ?_⟩
      rw [hre, enrichTransactionData_sig]
      rfl
  · intro e he
    rw [emittedEvents_eq hcs] at he
    exact dedup_go_emitted_seen _ (s.seen, []) (by intro e' he'; cases he') e he
  · intro hmem
    refine ⟨?_, ?_⟩
    · intro e he
      rw [emittedEvents_eq hcs] at he
      exact dedupFold_not_reemitted hmem e he
    · intro hlen hok
      by_cases he : slots.isEmpty
      · have hres : pollUsdtOnce env s = ({ s with cursor := some (env.headSlot + 1) }, true)
            ∨ pollUsdtOnce env s = (s, false) := by
          unfold pollUsdtOnce
          rw [hcs, List.isEmpty_iff.mp he]
          by_cases hcw : env.cursorWriteOk = true <;> simp [hcw]
        rcases hres with h | h
        · rw [h]
          exact hmem
        · rw [h] at hok
          exact absurd hok (by simp)
      · have hne : slots.isEmpty = false := by simpa using he
        rw [pollUsdtOnce_ok_seen env s hcs hne hok, trimSeen_id hlen]
        exact dedup_go_seen_mono _ _ sig hmem

/-- C10 witness: with "yy" pre-seen, the cycle does not re-emit it and it
survives the (non-firing) end-of-cycle trim. -/
theorem claim_C10_witness :
    (∀ e ∈ emittedEvents envC1 { cursor := none, sink := [], seen := ["yy"] },
        e.signature ≠ "yy") ∧
    "yy" ∈ (pollUsdtOnce envC1 { cursor := none, sink := [], seen := ["yy"] }).1.seen := by
  have h := claim_C10 envC1 { cursor := none, sink := [], seen := ["yy"] } [3] "yy" rfl
  have h3 := h.2.2 (by decide)
  exact ⟨h3.1, h3.2 (by decide) (by decide)⟩



/-- C10 counterexample: the first signature of the big run is emitted in
cycle one, dropped by the write filter (zero amount) and never persisted;
the cycle's 50100 insertions trigger the end-of-cycle reset, and the very
next cycle re-emits the same signature — refuting "it will not be
re-emitted for the rest of the process lifetime". -/
theorem claim_C10_counterexample :
    "a" ∈ (emittedEvents envBig s0).map (fun e => e.signature) ∧
    (∀ e ∈ emittedEvents envBig s0, passesWriteFilter e = false) ∧
    pollUsdtOnce envBig s0 = (stMid, true) ∧
    stMid.sink = [] ∧
    "a" ∈ (emittedEvents envSmall stMid).map (fun e => e.signature) := by
  have hemit : emittedEvents envBig s0 = rawEventsOfSlots envBig (List.range 501) := by
    rw [emittedEvents_eq (show cycleSlots envBig s0 = some (List.range 501) from rfl),
      show s0.seen = ([] : List String) from rfl, bigDedup]
  refine ⟨?_, ?_, pollUsdtOnce_envBig, rfl, ?_⟩
  · rw [hemit, bigRaw_sigs]
    have h0 : sigName 0 = "a" := by decide
    rw [← h0]
    exact List.mem_map_of_mem sigName (by simp)
  · intro e he
    rw [hemit] at he
    obtain ⟨sl, s, rfl⟩ := bigRaw_mem he
    exact passes_evZero sl s
  · decide



/-- C5 (amended): per scanned slot — at most 3 attempts in total (2
retries); an oversized response is skipped immediately with no retry and a
null recorded; a rate limit sleeps 1000 ms before the next attempt
(counted against the same retry budget); generic retries are separated by
a FIXED 500 ms delay, not an increasing one; a slot exhausting its budget
on generic failures records a null, while one exhausting it on rate
limits records nothing — either way it contributes zero events and the
window continues: in the oversized-block scenario, slot 77 is fetched
once, yields no event, and slot 88's transfer is still extracted. -/
theorem claim_C5 :
    (∀ att, (fetchBlockWithRetries att).2.1 ≤ 3) ∧
    (∀ att, att 0 = FetchOutcome.oversized →
        fetchBlockWithRetries att = (some none, 1, [])) ∧
    (∀ att, att 0 = FetchOutcome.rateLimited →
        fetchBlockWithRetries att = fetchBlockGo att 2 1 [1000]) ∧
    (∀ att, att 0 = FetchOutcome.generic → att 1 = FetchOutcome.generic →
        att 2 = FetchOutcome.generic →
        fetchBlockWithRetries att = (some none, 3, [500, 500])) ∧
    (∀ att, att 0 = FetchOutcome.rateLimited → att 1 = FetchOutcome.rateLimited →
        att 2 = FetchOutcome.rateLimited →
        fetchBlockWithRetries att = (none, 3, [1000, 1000, 1000])) ∧
    (fetchBlockWithRetries (attWin77 77) = (some none, 1, [])) ∧
    ((svcWindowEvents attWin77 getTxW [77, 88] 50).all (fun e => e.slot ≠ 77) = true) ∧
    ((svcWindowEvents attWin77 getTxW [77, 88] 50).map (fun e => e.signature) = ["w88"]) := by
  refine ⟨fun att => fetchBlockGo_attempts att 3 0 [], ?_, ?_, ?_, ?_, by decide, by decide,
    by decide⟩
  · intro att h
    simp [fetchBlockWithRetries, fetchBlockGo, h]
  · intro att h
    simp [fetchBlockWithRetries, fetchBlockGo, h]
  · intro att h0 h1 h2
    simp [fetchBlockWithRetries, fetchBlockGo, h0, h1, h2]
  · intro att h0 h1 h2
    simp [fetchBlockWithRetries, fetchBlockGo, h0, h1, h2]

/-- C5 witness: the amended retry facts at concrete attempt traces. -/
theorem claim_C5_witness :
    fetchBlockWithRetries (fun _ => FetchOutcome.oversized) = (some none, 1, []) ∧
    fetchBlockWithRetries attRate1 = fetchBlockGo attRate1 2 1 [1000] ∧
    fetchBlockWithRetries attGenAll = (some none, 3, [500, 500]) ∧
    fetchBlockWithRetries attRateAll = (none, 3, [1000, 1000, 1000]) :=
  ⟨claim_C5.2.1 _ rfl, claim_C5.2.2.1 attRate1 rfl,
    claim_C5.2.2.2.1 attGenAll rfl rfl rfl, claim_C5.2.2.2.2.1 attRateAll rfl rfl rfl⟩

/-- C5 counterexample: two generic failures then a success sleep 500 ms
before each retry — the delay between retries is constant, not
increasing; and a slot whose three attempts are all rate-limited records
nothing at all (not a null). -/
theorem claim_C5_counterexample :
    fetchBlockWithRetries attGen2
        = (some (some { slot := 55, blockTime := some 1, signatures := [] }), 3,
            [500, 500, 200]) ∧
    ¬ (500 : Nat) < 500 ∧
    fetchBlockWithRetries attRateAll = (none, 3, [1000, 1000, 1000]) ∧
    (none : Option (Option Block)) ≠ some none := by decide

end LW
